import Mathlib

/-!
Verification of the job-history staging list, the two commit protocols and the
employee-number derivation of the HR administration console.

The definitions below are a shallow embedding of the TypeScript sources:

* JobHistorySection (src/components/JobHistorySection.tsx and the extended
  variant with edit/seed support): handleAddJobHistory, handleEditJobHistory,
  handleSaveEdit, handleRemoveJobHistory, the existingJobHistories effect.
* EditEmployeeForm.handleSaveJobHistories: the replace-all commit.
* AddEmployeeForm.onSubmit / useEmployeeForm.onSubmit: the additive commit.
* fetchNextEmployeeNumber (AddEmployeeForm / useEmployeeForm).

Modelling conventions:
* JavaScript Date values are modelled as Nat (a millisecond timestamp or a
  day-precision date; no claim depends on the calendar rendering, so the
  yyyy-MM-dd formatting applied at commit time is modelled as the date value
  itself).
* JavaScript number salaries are modelled as Int (no claim computes with a
  fractional salary).
* React state updates are modelled by explicit state passing: each event
  handler is a function from the component state (plus the inputs the browser
  supplies, such as the clicked row index or the current clock reading) to a
  new state together with its observable effects (the destructive toast it
  raised, if any, and the payloads it passed to the onJobHistoriesChange
  callback of the owner form).
* Fallible network calls (Supabase insert/delete) are modelled by Bool
  parameters that say whether the corresponding call fails, and the calls the
  handler issues are recorded in order in a trace.
-/

/-- Staging entry of the job-history section (interface JobHistory of
JobHistorySection.tsx). id is the ephemeral client key, assigned from
Date.now().toString() on add and absent on a freshly typed form entry;
effdate is optional because the calendar widget can unselect the date
(the handlers guard on it); salary is number-or-null. -/
structure JobHistory where
  id : Option String
  jobcode : String
  deptcode : String
  effdate : Option Nat
  salary : Option Int
deriving Repr, DecidableEq

/-- Destructive toasts raised by the staging-list handlers, one per inline
validation branch of handleAddJobHistory / handleSaveEdit. The handlers have
no other failure vocabulary: in particular no not-found error exists in the
source. -/
inductive Toast where
  | missingJob
  | missingDepartment
  | missingEffectiveDate
deriving Repr, DecidableEq

/-- Component state of JobHistorySection that the staging operations touch:
the staged list, the new-entry form, and the edit-dialog state
(editingJobHistory, editIndex; editIndex is initialised to -1). -/
structure SectionState where
  jobHistories : List JobHistory
  newJobHistory : JobHistory
  editingJobHistory : Option JobHistory
  editIndex : Int
deriving Repr, DecidableEq

/-- Result of one event handler: the next component state, the destructive
toast it raised (if any), and the list payloads it passed to the owner's
onJobHistoriesChange callback, in order. -/
structure StepResult where
  state : SectionState
  toast : Option Toast
  onChangeCalls : List (List JobHistory)
deriving Repr, DecidableEq

/-- Fresh new-entry form produced by the reset at the end of a successful add:
jobcode "", deptcode "", effdate new Date(), salary null (and no id field). -/
def resetNewJobHistory (now : Nat) : JobHistory :=
  { id := none, jobcode := "", deptcode := "", effdate := some now, salary := none }

/-- handleAddJobHistory of JobHistorySection (identical in both variants of
the component). Validates jobcode, deptcode, effdate in that order, raising
the corresponding destructive toast and leaving the state untouched on the
first missing field; otherwise appends the form entry, tagged with
id := Date.now().toString(), to the end of the staged list, notifies the
owner with the updated list, and resets the form. -/
def handleAddJobHistory (s : SectionState) (now : Nat) : StepResult :=
  if s.newJobHistory.jobcode = "" then
    { state := s, toast := some .missingJob, onChangeCalls := [] }
  else if s.newJobHistory.deptcode = "" then
    { state := s, toast := some .missingDepartment, onChangeCalls := [] }
  else if s.newJobHistory.effdate = none then
    { state := s, toast := some .missingEffectiveDate, onChangeCalls := [] }
  else
    let updated := s.jobHistories ++ [{ s.newJobHistory with id := some (toString now) }]
    { state :=
        { s with jobHistories := updated, newJobHistory := resetNewJobHistory now },
      toast := none,
      onChangeCalls := [updated] }

/-- Value of the TypeScript spread of undefined: handleEditJobHistory reads
jobHistories[index], which is undefined when the index keys no entry, and
spreads it into a fresh object; every field of that object is then undefined,
which the validation guards of handleSaveEdit treat exactly like this
all-empty entry. -/
def spreadOfUndefined : JobHistory :=
  { id := none, jobcode := "", deptcode := "", effdate := none, salary := none }

/-- handleEditJobHistory of the extended JobHistorySection: captures a copy of
the entry at the clicked row index into editingJobHistory, remembers the index
in editIndex and opens the edit dialog. -/
def handleEditJobHistory (s : SectionState) (index : Nat) : SectionState :=
  { s with
      editingJobHistory := some ((s.jobHistories[index]?).getD spreadOfUndefined),
      editIndex := (index : Int) }

/-- Array assignment updatedJobHistories[editIndex] = e of handleSaveEdit.
For 0 <= i < length this is the in-place replacement the dialog performs. A
JavaScript assignment past the end would instead grow the backing array with
empty slots, but no save reaches that regime in the analysed flows: an entry
captured from an out-of-range index fails the jobcode validation guard before
the assignment runs. An assignment at a negative index leaves the array
elements unchanged. -/
def jsArraySet (l : List JobHistory) (i : Int) (e : JobHistory) : List JobHistory :=
  if 0 ≤ i then l.set i.toNat e else l

/-- handleSaveEdit of the extended JobHistorySection: returns silently when no
edit is in progress; otherwise re-validates the dialog entry with the same
three guards as handleAddJobHistory (same fields, same order, same toasts),
and on success writes the entry back at editIndex, notifies the owner, closes
the dialog and clears the edit state. -/
def handleSaveEdit (s : SectionState) : StepResult :=
  match s.editingJobHistory with
  | none => { state := s, toast := none, onChangeCalls := [] }
  | some e =>
    if e.jobcode = "" then
      { state := s, toast := some .missingJob, onChangeCalls := [] }
    else if e.deptcode = "" then
      { state := s, toast := some .missingDepartment, onChangeCalls := [] }
    else if e.effdate = none then
      { state := s, toast := some .missingEffectiveDate, onChangeCalls := [] }
    else
      let updated := jsArraySet s.jobHistories s.editIndex e
      { state :=
          { s with jobHistories := updated, editingJobHistory := none, editIndex := -1 },
        toast := none,
        onChangeCalls := [updated] }

/-- handleRemoveJobHistory of JobHistorySection: splice(index, 1) on a copy of
the staged list, then state update and owner notification. splice removes the
element at the index when one exists and removes nothing otherwise; no error
path exists. -/
def handleRemoveJobHistory (s : SectionState) (index : Nat) : StepResult :=
  let updated := s.jobHistories.eraseIdx index
  { state := { s with jobHistories := updated },
    toast := none,
    onChangeCalls := [updated] }

/-- Seeding effect of the extended JobHistorySection (the useEffect on
existingJobHistories): when the incoming existingJobHistories prop is
non-empty it overwrites the staged list wholesale; an empty prop is ignored.
The effect body only calls setJobHistories, so no onJobHistoriesChange
notification is made in either case. -/
def seedEffectStep (s : SectionState) (existingJobHistories : List JobHistory) : StepResult :=
  if 0 < existingJobHistories.length then
    { state := { s with jobHistories := existingJobHistories },
      toast := none, onChangeCalls := [] }
  else
    { state := s, toast := none, onChangeCalls := [] }

/-- Sequence of add interactions: for each step the user fills the new-entry
form with the given entry (the net effect of the component's per-field
handleInputChange calls is replacing newJobHistory wholesale) and clicks Add
at the given clock reading. -/
def addMany (s : SectionState) : List (JobHistory × Nat) → SectionState
  | [] => s
  | (e, t) :: rest =>
      addMany (handleAddJobHistory { s with newJobHistory := e } t).state rest

/-- Summary of the three validation guards shared by handleAddJobHistory and
handleSaveEdit: an entry passes iff jobcode and deptcode are non-empty and an
effective date is selected. -/
def passesValidation (h : JobHistory) : Bool :=
  !(h.jobcode == "") && !(h.deptcode == "") && !(h.effdate == none)

/-- Persisted jobhistory row, as built by the commit handlers: the employee
number tag, the staged entry's job and department codes, the formatted
effective date (modelled as the date value; committed entries always carry a
date, the getD 0 default is never exercised by a validated entry) and the
salary. Persisted rows carry no client id. -/
structure JobHistoryRow where
  empno : String
  jobcode : String
  deptcode : String
  effdate : Nat
  salary : Option Int
deriving Repr, DecidableEq

/-- Row mapping applied by both commit handlers to each staged entry
(jobHistories.map in handleSaveJobHistories and in onSubmit). -/
def jobHistoryRecordOf (empno : String) (h : JobHistory) : JobHistoryRow :=
  { empno := empno, jobcode := h.jobcode, deptcode := h.deptcode,
    effdate := h.effdate.getD 0, salary := h.salary }

/-- Employee row inserted by the additive commit (dates modelled as values,
as above). -/
structure EmployeeRow where
  empno : String
  firstname : Option String
  lastname : Option String
  gender : Option String
  birthdate : Option Nat
  hiredate : Option Nat
  sepdate : Option Nat
deriving Repr, DecidableEq

/-- Persistence calls a commit handler can issue, in the order they are
awaited. -/
inductive DbCall where
  | deleteJobHistoryWhere (empno : String)
  | insertJobHistoryRows (rows : List JobHistoryRow)
  | insertEmployeeRow (row : EmployeeRow)
deriving Repr, DecidableEq

/-- Outcome toast of a commit: the success toast of the try block or the
destructive toast of the catch block. -/
inductive CommitOutcome where
  | success
  | failure
deriving Repr, DecidableEq

/-- Result of the replace-all commit: the jobhistory table afterwards, the
trace of persistence calls issued, and the outcome surfaced to the user. -/
structure ReplaceAllResult where
  db : List JobHistoryRow
  calls : List DbCall
  outcome : CommitOutcome
deriving Repr, DecidableEq

/-- handleSaveJobHistories of EditEmployeeForm (replace-all commit): first
delete every persisted jobhistory row whose empno matches the employee; a
delete error throws into the catch block with the table untouched. Then, only
when the staged list is non-empty, insert the mapped records in staging
order; an insert error throws with the delete already applied (the partial
state the design accepts). Otherwise the success toast is raised.
deleteFails and insertFails model the outcomes of the two network calls. -/
def handleSaveJobHistories (db : List JobHistoryRow) (empno : String)
    (jobHistories : List JobHistory) (deleteFails insertFails : Bool) : ReplaceAllResult :=
  if deleteFails then
    { db := db, calls := [.deleteJobHistoryWhere empno], outcome := .failure }
  else
    let afterDelete := db.filter (fun row => !(row.empno == empno))
    if 0 < jobHistories.length then
      let records := jobHistories.map (jobHistoryRecordOf empno)
      if insertFails then
        { db := afterDelete,
          calls := [.deleteJobHistoryWhere empno, .insertJobHistoryRows records],
          outcome := .failure }
      else
        { db := afterDelete ++ records,
          calls := [.deleteJobHistoryWhere empno, .insertJobHistoryRows records],
          outcome := .success }
    else
      { db := afterDelete, calls := [.deleteJobHistoryWhere empno], outcome := .success }

/-- Result of the additive commit: both tables afterwards, the component's
staging list afterwards (onSubmit clears it only on success), the call trace
and the outcome. -/
structure AddSubmitResult where
  employeeTable : List EmployeeRow
  jobHistoryTable : List JobHistoryRow
  jobHistories : List JobHistory
  calls : List DbCall
  outcome : CommitOutcome
deriving Repr, DecidableEq

/-- onSubmit of AddEmployeeForm / useEmployeeForm (additive commit): insert
the employee row; an error throws into the catch block, which raises the
failure toast and touches neither table nor the staging list. Then, only when
the staging list is non-empty, insert the mapped jobhistory records in
staging order; an error throws with the employee row already inserted. On
success the form is reset, the staging list is cleared and the success toast
raised. empInsertFails and historyInsertFails model the two network calls. -/
def onSubmitAddEmployee (employeeTable : List EmployeeRow)
    (jobHistoryTable : List JobHistoryRow) (employee : EmployeeRow)
    (jobHistories : List JobHistory) (empInsertFails historyInsertFails : Bool) :
    AddSubmitResult :=
  if empInsertFails then
    { employeeTable := employeeTable, jobHistoryTable := jobHistoryTable,
      jobHistories := jobHistories, calls := [.insertEmployeeRow employee],
      outcome := .failure }
  else
    let employeeTable' := employeeTable ++ [employee]
    if 0 < jobHistories.length then
      let records := jobHistories.map (jobHistoryRecordOf employee.empno)
      if historyInsertFails then
        { employeeTable := employeeTable', jobHistoryTable := jobHistoryTable,
          jobHistories := jobHistories,
          calls := [.insertEmployeeRow employee, .insertJobHistoryRows records],
          outcome := .failure }
      else
        { employeeTable := employeeTable', jobHistoryTable := jobHistoryTable ++ records,
          jobHistories := [],
          calls := [.insertEmployeeRow employee, .insertJobHistoryRows records],
          outcome := .success }
    else
      { employeeTable := employeeTable', jobHistoryTable := jobHistoryTable,
        jobHistories := [], calls := [.insertEmployeeRow employee],
        outcome := .success }

/-- ASCII decimal digit test, the digit class accepted by parseInt(s, 10). -/
def isDigitChar (c : Char) : Bool :=
  48 ≤ c.toNat && c.toNat ≤ 57

/-- Numeric value of a list of decimal digit characters, most significant
first. -/
def digitsVal : List Char → Nat
  | [] => 0
  | c :: cs => (c.toNat - 48) * 10 ^ cs.length + digitsVal cs

/-- Longest run of decimal digits at the front of the character list. -/
def leadingDigits (cs : List Char) : List Char :=
  cs.takeWhile isDigitChar

/-- JavaScript parseInt(s, 10): skip leading whitespace, accept an optional
sign, then read the longest run of decimal digits; NaN (modelled as none)
when no digit follows. -/
def parseIntJS (s : String) : Option Int :=
  match s.data.dropWhile (fun c => c.isWhitespace) with
  | [] => none
  | c :: rest =>
    if c = '-' then
      if (leadingDigits rest).isEmpty then none
      else some (-(digitsVal (leadingDigits rest) : Int))
    else if c = '+' then
      if (leadingDigits rest).isEmpty then none
      else some ((digitsVal (leadingDigits rest) : Int))
    else
      if (leadingDigits (c :: rest)).isEmpty then none
      else some ((digitsVal (leadingDigits (c :: rest)) : Int))

/-- Character comparison underlying the text ordering of the empno column:
byte order on the code points, which agrees with the persisted collation on
the plain digit strings all empnos are. -/
def charLtB (c d : Char) : Bool :=
  c.toNat < d.toNat

/-- Lexicographic comparison of strings as character lists, the order the
backend applies to the text empno column. -/
def lexLtB : List Char → List Char → Bool
  | _, [] => false
  | [], _ :: _ => true
  | a :: as, b :: bs =>
    if charLtB a b then true
    else if charLtB b a then false
    else lexLtB as bs

/-- First row of select empno order by empno descending: the lexicographically
greatest empno, or none when the employee table is empty. -/
def maxLexString (l : List String) : Option String :=
  l.foldl
    (fun acc s =>
      match acc with
      | none => some s
      | some m => if lexLtB m.data s.data then some s else some m)
    none

/-- fetchNextEmployeeNumber of AddEmployeeForm / useEmployeeForm: fetch the
greatest empno under the column's text ordering; default "1001" when no row
exists; otherwise parseInt it and, unless that gives NaN, answer that number
plus one, rendered back to a string. -/
def fetchNextEmployeeNumber (empnos : List String) : String :=
  match maxLexString empnos with
  | none => "1001"
  | some highestEmpNo =>
    match parseIntJS highestEmpNo with
    | none => "1001"
    | some currentNumber => toString (currentNumber + 1)

/-- Concrete staged entry used by witnesses. -/
def devEntry : JobHistory :=
  { id := none, jobcode := "DEV", deptcode := "ENG", effdate := some 100, salary := some 90000 }

/-- Concrete staged entry used by witnesses. -/
def qaEntry : JobHistory :=
  { id := none, jobcode := "QA", deptcode := "ENG", effdate := some 200, salary := none }

/-- Concrete staged entry used by witnesses. -/
def mgrEntry : JobHistory :=
  { id := none, jobcode := "MGR", deptcode := "OPS", effdate := some 300, salary := some 120000 }

/-- Concrete persisted row used by witnesses. -/
def rowP1 : JobHistoryRow :=
  { empno := "1001", jobcode := "CLK", deptcode := "HR", effdate := 10, salary := some 50000 }

/-- Concrete persisted row used by witnesses. -/
def rowP2 : JobHistoryRow :=
  { empno := "1001", jobcode := "SEC", deptcode := "HR", effdate := 20, salary := none }

/-- Section state with the given staged list, a blank form, and no edit in
progress, as right after the dialog opens. -/
def baseState (l : List JobHistory) : SectionState :=
  { jobHistories := l, newJobHistory := resetNewJobHistory 0,
    editingJobHistory := none, editIndex := -1 }

/-! Helper lemmas shared by several claims. -/

/-- Rows surviving the empno delete never match the empno again. -/
theorem filter_ne_filter_eq_nil (db : List JobHistoryRow) (e : String) :
    (db.filter (fun row => !(row.empno == e))).filter (fun row => row.empno == e) = [] := by
  induction db with
  | nil => rfl
  | cons r t ih =>
    by_cases h : r.empno = e
    · simp [List.filter_cons, h, ih]
    · simp [List.filter_cons, h, ih]

/-- Every record built by the commit row mapping carries the employee's
number. -/
theorem filter_eq_map_records (histories : List JobHistory) (e : String) :
    (histories.map (jobHistoryRecordOf e)).filter (fun row => row.empno == e) =
      histories.map (jobHistoryRecordOf e) := by
  rw [List.filter_eq_self]
  intro row hrow
  simp only [List.mem_map] at hrow
  obtain ⟨h, -, rfl⟩ := hrow
  simp [jobHistoryRecordOf]

/-- Unfolding of a successful add: the validated form entry is appended with
its freshly assigned id, the owner is notified once with the updated list,
and the form is reset. -/
theorem handleAdd_success_eq (s : SectionState) (now : Nat)
    (h : passesValidation s.newJobHistory = true) :
    handleAddJobHistory s now =
      { state :=
          { s with
              jobHistories :=
                s.jobHistories ++ [{ s.newJobHistory with id := some (toString now) }],
              newJobHistory := resetNewJobHistory now },
        toast := none,
        onChangeCalls :=
          [s.jobHistories ++ [{ s.newJobHistory with id := some (toString now) }]] } := by
  simp only [passesValidation, Bool.and_eq_true, Bool.not_eq_true', beq_eq_false_iff_ne,
    ne_eq] at h
  simp [handleAddJobHistory, h.1.1, h.1.2, h.2]

/-- Unfolding of a rejected add: the state is returned untouched and the owner
is not notified. -/
theorem handleAdd_failure_state (s : SectionState) (now : Nat)
    (h : passesValidation s.newJobHistory = false) :
    (handleAddJobHistory s now).state = s ∧ (handleAddJobHistory s now).onChangeCalls = [] := by
  by_cases h1 : s.newJobHistory.jobcode = ""
  · simp [handleAddJobHistory, h1]
  · by_cases h2 : s.newJobHistory.deptcode = ""
    · simp [handleAddJobHistory, h1, h2]
    · by_cases h3 : s.newJobHistory.effdate = none
      · simp [handleAddJobHistory, h1, h2, h3]
      · exfalso
        simp [passesValidation, h1, h2, h3] at h

/-- C2: in the create flow, a failed employee insert leaves both tables
untouched (in particular no job-history row is written: the only persistence
call issued is the employee insert), surfaces the failure, and preserves the
staging list exactly as it was. -/
theorem addCommit_employee_insert_fails (employeeTable : List EmployeeRow)
    (jobHistoryTable : List JobHistoryRow) (employee : EmployeeRow)
    (jobHistories : List JobHistory) (historyInsertFails : Bool) :
    onSubmitAddEmployee employeeTable jobHistoryTable employee jobHistories true
        historyInsertFails =
      { employeeTable := employeeTable, jobHistoryTable := jobHistoryTable,
        jobHistories := jobHistories, calls := [.insertEmployeeRow employee],
        outcome := .failure } := by
  simp [onSubmitAddEmployee]

/-- C10: a replace-all commit with an empty staging list issues the delete
call only (the insert step is skipped by the length guard), reports success,
and leaves the employee with no persisted job-history row at all. -/
theorem replaceAll_commit_empty_staging (db : List JobHistoryRow) (empno : String)
    (insertFails : Bool) :
    handleSaveJobHistories db empno [] false insertFails =
      { db := db.filter (fun row => !(row.empno == empno)),
        calls := [.deleteJobHistoryWhere empno], outcome := .success } ∧
    (handleSaveJobHistories db empno [] false insertFails).db.filter
      (fun row => row.empno == empno) = [] := by
  constructor
  · simp [handleSaveJobHistories]
  · simp [handleSaveJobHistories, filter_ne_filter_eq_nil]

/-- C1: a successful replace-all commit issues the delete for the employee
first and the insert of the staged records second, in staging order; the
rows persisted for that employee afterwards are exactly the staged entries,
with every previously persisted row for that employee gone. -/
theorem replaceAll_commit_success (db : List JobHistoryRow) (empno : String)
    (histories : List JobHistory) (hne : histories ≠ []) :
    (handleSaveJobHistories db empno histories false false).outcome = .success ∧
    (handleSaveJobHistories db empno histories false false).calls =
      [.deleteJobHistoryWhere empno,
       .insertJobHistoryRows (histories.map (jobHistoryRecordOf empno))] ∧
    (handleSaveJobHistories db empno histories false false).db =
      db.filter (fun row => !(row.empno == empno)) ++
        histories.map (jobHistoryRecordOf empno) ∧
    (handleSaveJobHistories db empno histories false false).db.filter
      (fun row => row.empno == empno) = histories.map (jobHistoryRecordOf empno) := by
  have hlen : 0 < histories.length := List.length_pos.mpr hne
  refine ⟨?_, ?_, ?_, ?_⟩ <;>
    simp [handleSaveJobHistories, hlen, List.filter_append, filter_ne_filter_eq_nil,
      filter_eq_map_records]

/-- C1 witness: the commit of staging list [devEntry, qaEntry, mgrEntry] for
employee 1001 over two previously persisted rows. -/
theorem replaceAll_commit_success_witness :
    (handleSaveJobHistories [rowP1, rowP2] "1001" [devEntry, qaEntry, mgrEntry]
        false false).outcome = .success ∧
    (handleSaveJobHistories [rowP1, rowP2] "1001" [devEntry, qaEntry, mgrEntry]
        false false).calls =
      [.deleteJobHistoryWhere "1001",
       .insertJobHistoryRows
         ([devEntry, qaEntry, mgrEntry].map (jobHistoryRecordOf "1001"))] ∧
    (handleSaveJobHistories [rowP1, rowP2] "1001" [devEntry, qaEntry, mgrEntry]
        false false).db =
      [rowP1, rowP2].filter (fun row => !(row.empno == "1001")) ++
        [devEntry, qaEntry, mgrEntry].map (jobHistoryRecordOf "1001") ∧
    (handleSaveJobHistories [rowP1, rowP2] "1001" [devEntry, qaEntry, mgrEntry]
        false false).db.filter (fun row => row.empno == "1001") =
      [devEntry, qaEntry, mgrEntry].map (jobHistoryRecordOf "1001") :=
  replaceAll_commit_success [rowP1, rowP2] "1001" [devEntry, qaEntry, mgrEntry] (by decide)

/-- C4: an add whose form entry misses jobcode, deptcode or the effective
date leaves the component state untouched (in particular the staging list and
its length), does not notify the owner, and raises the toast of the first
missing field, checked in the order jobcode, deptcode, effective date. -/
theorem add_validation_first_missing (s : SectionState) (now : Nat)
    (h : s.newJobHistory.jobcode = "" ∨ s.newJobHistory.deptcode = "" ∨
      s.newJobHistory.effdate = none) :
    (handleAddJobHistory s now).state = s ∧
    (handleAddJobHistory s now).onChangeCalls = [] ∧
    (handleAddJobHistory s now).toast =
      some (if s.newJobHistory.jobcode = "" then Toast.missingJob
        else if s.newJobHistory.deptcode = "" then Toast.missingDepartment
        else Toast.missingEffectiveDate) := by
  by_cases h1 : s.newJobHistory.jobcode = ""
  · simp [handleAddJobHistory, h1]
  · by_cases h2 : s.newJobHistory.deptcode = ""
    · simp [handleAddJobHistory, h1, h2]
    · have h3 : s.newJobHistory.effdate = none := by tauto
      simp [handleAddJobHistory, h1, h2, h3]

/-- C4 witness: adding an entry with an empty jobcode over a one-element
staging list. -/
theorem add_validation_first_missing_witness :
    ({ baseState [devEntry] with
        newJobHistory := { qaEntry with jobcode := "" } }.newJobHistory.jobcode = "" ∨
      { baseState [devEntry] with
        newJobHistory := { qaEntry with jobcode := "" } }.newJobHistory.deptcode = "" ∨
      { baseState [devEntry] with
        newJobHistory := { qaEntry with jobcode := "" } }.newJobHistory.effdate = none) ∧
    ((handleAddJobHistory
        { baseState [devEntry] with newJobHistory := { qaEntry with jobcode := "" } }
        7).state =
      { baseState [devEntry] with newJobHistory := { qaEntry with jobcode := "" } } ∧
    (handleAddJobHistory
        { baseState [devEntry] with newJobHistory := { qaEntry with jobcode := "" } }
        7).onChangeCalls = [] ∧
    (handleAddJobHistory
        { baseState [devEntry] with newJobHistory := { qaEntry with jobcode := "" } }
        7).toast =
      some (if { baseState [devEntry] with
            newJobHistory := { qaEntry with jobcode := "" } }.newJobHistory.jobcode = ""
        then Toast.missingJob
        else if { baseState [devEntry] with
            newJobHistory := { qaEntry with jobcode := "" } }.newJobHistory.deptcode = ""
        then Toast.missingDepartment
        else Toast.missingEffectiveDate)) :=
  ⟨by decide,
    add_validation_first_missing
      { baseState [devEntry] with newJobHistory := { qaEntry with jobcode := "" } } 7
      (by decide)⟩

/-- Net effect of a sequence of add interactions on the staged list: the
entries that pass validation are appended in interaction order, each tagged
with the id rendered from its clock reading; rejected entries leave the list
untouched. -/
theorem addMany_jobHistories_eq (s : SectionState) (steps : List (JobHistory × Nat)) :
    (addMany s steps).jobHistories =
      s.jobHistories ++
        (steps.filter (fun p => passesValidation p.1)).map
          (fun p => { p.1 with id := some (toString p.2) }) := by
  induction steps generalizing s with
  | nil => simp [addMany]
  | cons p rest ih =>
    obtain ⟨e, t⟩ := p
    by_cases h : passesValidation e = true
    · have hs : passesValidation ({ s with newJobHistory := e } : SectionState).newJobHistory
          = true := h
      rw [addMany, handleAdd_success_eq _ t hs, ih]
      simp [List.filter_cons, h]
    · have hb : passesValidation e = false := by simpa using h
      have hs : passesValidation ({ s with newJobHistory := e } : SectionState).newJobHistory
          = false := hb
      rw [addMany, (handleAdd_failure_state { s with newJobHistory := e } t hs).1, ih]
      simp [List.filter_cons, hb]

/-- C5: three successful adds starting from an empty staging list append in
interaction order: the resulting staging list is exactly the three form
entries, in that order, each carrying its freshly assigned id. -/
theorem add_ordering_three (E1 E2 E3 : JobHistory) (t1 t2 t3 : Nat)
    (h1 : passesValidation E1 = true) (h2 : passesValidation E2 = true)
    (h3 : passesValidation E3 = true) :
    (addMany (baseState []) [(E1, t1), (E2, t2), (E3, t3)]).jobHistories =
      [{ E1 with id := some (toString t1) }, { E2 with id := some (toString t2) },
       { E3 with id := some (toString t3) }] := by
  rw [addMany_jobHistories_eq]
  simp [baseState, List.filter_cons, h1, h2, h3]

/-- C5 witness: adding devEntry, qaEntry, mgrEntry at clock readings 5, 6, 7
from the empty staging list. -/
theorem add_ordering_three_witness :
    passesValidation devEntry = true ∧ passesValidation qaEntry = true ∧
    passesValidation mgrEntry = true ∧
    (addMany (baseState []) [(devEntry, 5), (qaEntry, 6), (mgrEntry, 7)]).jobHistories =
      [{ devEntry with id := some (toString 5) }, { qaEntry with id := some (toString 6) },
       { mgrEntry with id := some (toString 7) }] :=
  ⟨by decide, by decide, by decide,
    add_ordering_three devEntry qaEntry mgrEntry 5 6 7 (by decide) (by decide) (by decide)⟩

/-- C6: saving the edit dialog re-validates the dialog entry with the very
guards of add (the toast raised equals the one add would raise on the same
entry), and a valid save replaces the entry at its captured position: the
list becomes set i e', so the length is preserved and every other position is
untouched, and the owner is notified with exactly that list. -/
theorem edit_revalidates_and_preserves_position (s : SectionState) (i : Nat)
    (_hi : i < s.jobHistories.length) (e' : JobHistory) :
    (handleSaveEdit { handleEditJobHistory s i with editingJobHistory := some e' }).toast =
      (handleAddJobHistory { s with newJobHistory := e' } 0).toast ∧
    (passesValidation e' = true →
      (handleSaveEdit { handleEditJobHistory s i with
          editingJobHistory := some e' }).state.jobHistories = s.jobHistories.set i e' ∧
      (handleSaveEdit { handleEditJobHistory s i with
          editingJobHistory := some e' }).state.jobHistories.length =
        s.jobHistories.length ∧
      (handleSaveEdit { handleEditJobHistory s i with
          editingJobHistory := some e' }).onChangeCalls = [s.jobHistories.set i e']) := by
  constructor
  · by_cases h1 : e'.jobcode = ""
    · simp [handleSaveEdit, handleAddJobHistory, handleEditJobHistory, h1]
    · by_cases h2 : e'.deptcode = ""
      · simp [handleSaveEdit, handleAddJobHistory, handleEditJobHistory, h1, h2]
      · by_cases h3 : e'.effdate = none
        · simp [handleSaveEdit, handleAddJobHistory, handleEditJobHistory, h1, h2, h3]
        · simp [handleSaveEdit, handleAddJobHistory, handleEditJobHistory, h1, h2, h3]
  · intro hv
    simp only [passesValidation, Bool.and_eq_true, Bool.not_eq_true', beq_eq_false_iff_ne,
      ne_eq] at hv
    simp [handleSaveEdit, handleEditJobHistory, hv.1.1, hv.1.2, hv.2, jsArraySet]

/-- C6 witness: editing the middle entry of a three-entry staging list into a
senior variant. -/
theorem edit_revalidates_and_preserves_position_witness :
    (handleSaveEdit { handleEditJobHistory (baseState [devEntry, qaEntry, mgrEntry]) 1 with
        editingJobHistory := some { qaEntry with jobcode := "SRQA" } }).toast =
      (handleAddJobHistory { baseState [devEntry, qaEntry, mgrEntry] with
          newJobHistory := { qaEntry with jobcode := "SRQA" } } 0).toast ∧
    (handleSaveEdit { handleEditJobHistory (baseState [devEntry, qaEntry, mgrEntry]) 1 with
        editingJobHistory := some { qaEntry with jobcode := "SRQA" } }).state.jobHistories =
      [devEntry, qaEntry, mgrEntry].set 1 { qaEntry with jobcode := "SRQA" } ∧
    (handleSaveEdit { handleEditJobHistory (baseState [devEntry, qaEntry, mgrEntry]) 1 with
        editingJobHistory := some { qaEntry with jobcode := "SRQA" } }).state.jobHistories.length =
      ([devEntry, qaEntry, mgrEntry] : List JobHistory).length ∧
    (handleSaveEdit { handleEditJobHistory (baseState [devEntry, qaEntry, mgrEntry]) 1 with
        editingJobHistory := some { qaEntry with jobcode := "SRQA" } }).onChangeCalls =
      [[devEntry, qaEntry, mgrEntry].set 1 { qaEntry with jobcode := "SRQA" }] := by
  have h := edit_revalidates_and_preserves_position (baseState [devEntry, qaEntry, mgrEntry])
    1 (by decide) { qaEntry with jobcode := "SRQA" }
  exact ⟨h.1, (h.2 (by decide)).1, (h.2 (by decide)).2.1, (h.2 (by decide)).2.2⟩

/-- C3 counterexample: the claim requires edit and remove on an id absent
from the staging list to fail with a NotFound error. On the code, a remove
whose index keys no entry signals no error at all — it raises no toast and
even notifies the owner with the (unchanged) list exactly as a successful
mutation would — and the only failure a save after capturing an absent index
can raise is the missing-job validation toast: no NotFound error exists in
the component's vocabulary. -/
theorem edit_remove_unknown_id_counterexample :
    (handleRemoveJobHistory (baseState [devEntry]) 1).toast = none ∧
    (handleRemoveJobHistory (baseState [devEntry]) 1).state.jobHistories = [devEntry] ∧
    (handleRemoveJobHistory (baseState [devEntry]) 1).onChangeCalls = [[devEntry]] ∧
    (handleSaveEdit (handleEditJobHistory (baseState [devEntry]) 1)).toast =
      some Toast.missingJob := by
  decide

/-- C3 (amended): edit and remove are keyed by list index, and neither
produces a NotFound error. A remove at an index that keys no entry leaves
the staged entries unchanged and raises no toast, but still notifies the
owner with the unchanged list; opening the edit dialog at such an index
captures the spread of undefined, so saving it fails on the first validation
guard (missing job) and leaves the staged list unmodified without notifying
the owner. -/
theorem edit_remove_unknown_id (s : SectionState) (i : Nat)
    (h : s.jobHistories.length ≤ i) :
    (handleRemoveJobHistory s i).state.jobHistories = s.jobHistories ∧
    (handleRemoveJobHistory s i).toast = none ∧
    (handleRemoveJobHistory s i).onChangeCalls = [s.jobHistories] ∧
    (handleSaveEdit (handleEditJobHistory s i)).state.jobHistories = s.jobHistories ∧
    (handleSaveEdit (handleEditJobHistory s i)).toast = some Toast.missingJob ∧
    (handleSaveEdit (handleEditJobHistory s i)).onChangeCalls = [] := by
  have her : s.jobHistories.eraseIdx i = s.jobHistories := List.eraseIdx_eq_self.mpr h
  have hcap : s.jobHistories[i]? = none := List.getElem?_eq_none_iff.mpr h
  simp [handleRemoveJobHistory, handleSaveEdit, handleEditJobHistory, her, hcap,
    spreadOfUndefined]

/-- C3 witness: remove and edit at index 5 of a two-entry staging list. -/
theorem edit_remove_unknown_id_witness :
    (baseState [devEntry, qaEntry]).jobHistories.length ≤ 5 ∧
    ((handleRemoveJobHistory (baseState [devEntry, qaEntry]) 5).state.jobHistories =
        (baseState [devEntry, qaEntry]).jobHistories ∧
      (handleRemoveJobHistory (baseState [devEntry, qaEntry]) 5).toast = none ∧
      (handleRemoveJobHistory (baseState [devEntry, qaEntry]) 5).onChangeCalls =
        [(baseState [devEntry, qaEntry]).jobHistories] ∧
      (handleSaveEdit (handleEditJobHistory (baseState [devEntry, qaEntry]) 5)).state.jobHistories =
        (baseState [devEntry, qaEntry]).jobHistories ∧
      (handleSaveEdit (handleEditJobHistory (baseState [devEntry, qaEntry]) 5)).toast =
        some Toast.missingJob ∧
      (handleSaveEdit (handleEditJobHistory (baseState [devEntry, qaEntry]) 5)).onChangeCalls =
        []) :=
  ⟨by decide, edit_remove_unknown_id (baseState [devEntry, qaEntry]) 5 (by decide)⟩

/-- C7 counterexample: localIds are rendered from Date.now(), so two adds in
the same millisecond assign the same id. Adding two (distinct) valid entries
at the same clock reading 5 produces a staging list whose two entries both
carry localId "5": localIds are not unique within a session. -/
theorem localId_collision_counterexample :
    (addMany (baseState []) [(devEntry, 5), (qaEntry, 5)]).jobHistories.map
        (fun h => h.id) = [some "5", some "5"] ∧
    ¬ ((addMany (baseState []) [(devEntry, 5), (qaEntry, 5)]).jobHistories.filterMap
        (fun h => h.id)).Pairwise (· ≠ ·) := by
  decide

/-- C7 (amended): localIds assigned by add are unique provided the clock
readings of the adds render to pairwise distinct strings (in particular
whenever the adds occur at pairwise distinct Date.now() milliseconds): for
any sequence of add interactions from an empty staging list whose rendered
timestamps are pairwise distinct, no two entries of the resulting staging
list carry the same localId. -/
theorem localIds_distinct_of_distinct_timestamps (form0 : JobHistory)
    (steps : List (JobHistory × Nat))
    (hd : (steps.map (fun p => toString p.2)).Pairwise (· ≠ ·)) :
    ((addMany { baseState [] with newJobHistory := form0 } steps).jobHistories.filterMap
        (fun h => h.id)).Pairwise (· ≠ ·) := by
  rw [addMany_jobHistories_eq]
  simp only [baseState, List.nil_append]
  rw [List.filterMap_map]
  have hmap :
      ((steps.filter (fun p => passesValidation p.1)).filterMap
          ((fun h => h.id) ∘ fun p => { p.1 with id := some (toString p.2) })) =
        (steps.filter (fun p => passesValidation p.1)).map (fun p => toString p.2) :=
    List.filterMap_eq_map _ ▸ rfl
  rw [hmap]
  exact hd.sublist ((List.filter_sublist _).map _)

/-- C7 witness: two adds at distinct clock readings 5 and 6. -/
theorem localIds_distinct_of_distinct_timestamps_witness :
    (([(devEntry, 5), (qaEntry, 6)] : List (JobHistory × Nat)).map
        (fun p => toString p.2)).Pairwise (· ≠ ·) ∧
    ((addMany { baseState [] with newJobHistory := resetNewJobHistory 0 }
        [(devEntry, 5), (qaEntry, 6)]).jobHistories.filterMap (fun h => h.id)).Pairwise
      (· ≠ ·) :=
  ⟨by decide,
    localIds_distinct_of_distinct_timestamps (resetNewJobHistory 0)
      [(devEntry, 5), (qaEntry, 6)] (by decide)⟩

/-- C8 counterexample: the claim requires seed to replace the staging list
wholesale for every seed input. The seeding effect is guarded by a non-empty
check, so seeding a one-entry staging list with the empty list leaves the
one entry in place instead of emptying the list. -/
theorem seed_empty_counterexample :
    (seedEffectStep (baseState [devEntry]) []).state.jobHistories = [devEntry] ∧
    (seedEffectStep (baseState [devEntry]) []).state.jobHistories ≠ [] := by
  decide

/-- C8 (amended): seeding with a non-empty entry list replaces the staging
list wholesale with exactly those entries, and seeding never notifies the
owner nor raises a toast; seeding with the empty list is ignored (the
current staging list is kept). -/
theorem seed_replaces_wholesale (s : SectionState) (entries : List JobHistory)
    (h : entries ≠ []) :
    (seedEffectStep s entries).state.jobHistories = entries ∧
    (seedEffectStep s entries).onChangeCalls = [] ∧
    (seedEffectStep s entries).toast = none ∧
    (seedEffectStep s []).state = s ∧
    (seedEffectStep s []).onChangeCalls = [] := by
  have hlen : 0 < entries.length := List.length_pos.mpr h
  refine ⟨?_, ?_, ?_, ?_, ?_⟩ <;> simp [seedEffectStep, hlen]

/-- C8 witness: seeding a one-entry staging list with two persisted
entries. -/
theorem seed_replaces_wholesale_witness :
    ([qaEntry, mgrEntry] : List JobHistory) ≠ [] ∧
    ((seedEffectStep (baseState [devEntry]) [qaEntry, mgrEntry]).state.jobHistories =
        [qaEntry, mgrEntry] ∧
      (seedEffectStep (baseState [devEntry]) [qaEntry, mgrEntry]).onChangeCalls = [] ∧
      (seedEffectStep (baseState [devEntry]) [qaEntry, mgrEntry]).toast = none ∧
      (seedEffectStep (baseState [devEntry]) []).state = baseState [devEntry] ∧
      (seedEffectStep (baseState [devEntry]) []).onChangeCalls = []) :=
  ⟨by decide, seed_replaces_wholesale (baseState [devEntry]) [qaEntry, mgrEntry] (by decide)⟩

/-- Digit characters are not whitespace. -/
theorem not_whitespace_of_digit (c : Char) (h : isDigitChar c = true) :
    c.isWhitespace = false := by
  by_contra hw
  have hw' : c.isWhitespace = true := by simpa using hw
  simp only [isDigitChar, Bool.and_eq_true, decide_eq_true_eq] at h
  simp only [Char.isWhitespace, Bool.or_eq_true, decide_eq_true_eq] at hw'
  rcases hw' with ((h1 | h1) | h1) | h1 <;> subst h1 <;> revert h <;> decide

/-- Digit characters are not the minus sign. -/
theorem digit_ne_dash (c : Char) (h : isDigitChar c = true) : c ≠ '-' := by
  intro he
  subst he
  exact absurd h (by decide)

/-- Digit characters are not the plus sign. -/
theorem digit_ne_plus (c : Char) (h : isDigitChar c = true) : c ≠ '+' := by
  intro he
  subst he
  exact absurd h (by decide)

/-- Value bound of a digit string: a k-digit string is below 10 ^ k. -/
theorem digitsVal_lt (cs : List Char) (h : ∀ c ∈ cs, isDigitChar c = true) :
    digitsVal cs < 10 ^ cs.length := by
  induction cs with
  | nil => simp [digitsVal]
  | cons c cs ih =>
    have hc : 48 ≤ c.toNat ∧ c.toNat ≤ 57 := by
      have := h c (List.mem_cons_self _ _)
      simpa [isDigitChar] using this
    have hcs := ih (fun x hx => h x (List.mem_cons_of_mem _ hx))
    simp only [digitsVal, List.length_cons, pow_succ]
    calc (c.toNat - 48) * 10 ^ cs.length + digitsVal cs
        < (c.toNat - 48) * 10 ^ cs.length + 10 ^ cs.length := by omega
      _ = (c.toNat - 48 + 1) * 10 ^ cs.length := by ring
      _ ≤ 10 * 10 ^ cs.length := Nat.mul_le_mul_right _ (by omega)
      _ = 10 ^ cs.length * 10 := by ring

/-- On digit strings of equal length, the lexicographic order of the text
column agrees with the numeric order of the values. -/
theorem lexLtB_iff_digitsVal (as : List Char) : ∀ bs : List Char,
    as.length = bs.length →
    (∀ c ∈ as, isDigitChar c = true) → (∀ c ∈ bs, isDigitChar c = true) →
    (lexLtB as bs = true ↔ digitsVal as < digitsVal bs) := by
  induction as with
  | nil =>
    intro bs hlen _ _
    cases bs with
    | nil => simp [lexLtB, digitsVal]
    | cons b bs => simp at hlen
  | cons a as ih =>
    intro bs hlen ha hb
    cases bs with
    | nil => simp at hlen
    | cons b bs =>
      have hlen' : as.length = bs.length := by simpa using hlen
      have hda : 48 ≤ a.toNat ∧ a.toNat ≤ 57 := by
        have := ha a (List.mem_cons_self _ _)
        simpa [isDigitChar] using this
      have hdb : 48 ≤ b.toNat ∧ b.toNat ≤ 57 := by
        have := hb b (List.mem_cons_self _ _)
        simpa [isDigitChar] using this
      have hta : ∀ c ∈ as, isDigitChar c = true := fun c hc => ha c (List.mem_cons_of_mem _ hc)
      have htb : ∀ c ∈ bs, isDigitChar c = true := fun c hc => hb c (List.mem_cons_of_mem _ hc)
      have hba : digitsVal as < 10 ^ as.length := digitsVal_lt as hta
      have hbb : digitsVal bs < 10 ^ bs.length := digitsVal_lt bs htb
      by_cases h1 : a.toNat < b.toNat
      · have hchar : charLtB a b = true := by simp [charLtB, h1]
        have hlt : digitsVal (a :: as) < digitsVal (b :: bs) := by
          simp only [digitsVal]
          calc (a.toNat - 48) * 10 ^ as.length + digitsVal as
              < (a.toNat - 48) * 10 ^ as.length + 10 ^ as.length := by omega
            _ = (a.toNat - 48 + 1) * 10 ^ as.length := by ring
            _ ≤ (b.toNat - 48) * 10 ^ as.length := Nat.mul_le_mul_right _ (by omega)
            _ = (b.toNat - 48) * 10 ^ bs.length := by rw [hlen']
            _ ≤ (b.toNat - 48) * 10 ^ bs.length + digitsVal bs := Nat.le_add_right _ _
        simp [lexLtB, hchar, hlt]
      · by_cases h2 : b.toNat < a.toNat
        · have hc1 : charLtB a b = false := by
            simp only [charLtB, decide_eq_false_iff_not]
            omega
          have hc2 : charLtB b a = true := by simp [charLtB, h2]
          have hgt : digitsVal (b :: bs) < digitsVal (a :: as) := by
            simp only [digitsVal]
            calc (b.toNat - 48) * 10 ^ bs.length + digitsVal bs
                < (b.toNat - 48) * 10 ^ bs.length + 10 ^ bs.length := by omega
              _ = (b.toNat - 48 + 1) * 10 ^ bs.length := by ring
              _ ≤ (a.toNat - 48) * 10 ^ bs.length := Nat.mul_le_mul_right _ (by omega)
              _ = (a.toNat - 48) * 10 ^ as.length := by rw [hlen']
              _ ≤ (a.toNat - 48) * 10 ^ as.length + digitsVal as := Nat.le_add_right _ _
          simp only [lexLtB, hc1, hc2]
          constructor
          · intro hcontra
            simp at hcontra
          · intro hcontra
            omega
        · have heq : a.toNat = b.toNat := by omega
          have hc1 : charLtB a b = false := by
            simp only [charLtB, decide_eq_false_iff_not]
            omega
          have hc2 : charLtB b a = false := by
            simp only [charLtB, decide_eq_false_iff_not]
            omega
          have hih := ih bs hlen' hta htb
          simp only [lexLtB, hc1, hc2, Bool.false_eq_true, if_false]
          rw [hih]
          simp only [digitsVal]
          rw [heq, hlen']
          omega

/-- Spec of the descending-order fold: starting from a digit string of the
common length, the fold returns a member (or the start) that numerically
dominates the start and every element folded over. -/
theorem foldlMax_spec (xs : List String) : ∀ (m0 : String) (L : Nat),
    m0.data.length = L → (∀ c ∈ m0.data, isDigitChar c = true) →
    (∀ s ∈ xs, s.data.length = L ∧ ∀ c ∈ s.data, isDigitChar c = true) →
    ∃ m, (xs.foldl
        (fun acc s =>
          match acc with
          | none => some s
          | some m => if lexLtB m.data s.data then some s else some m)
        (some m0)) = some m ∧
      (m = m0 ∨ m ∈ xs) ∧ m.data.length = L ∧ (∀ c ∈ m.data, isDigitChar c = true) ∧
      digitsVal m0.data ≤ digitsVal m.data ∧
      ∀ s ∈ xs, digitsVal s.data ≤ digitsVal m.data := by
  induction xs with
  | nil =>
    intro m0 L h1 h2 _
    exact ⟨m0, rfl, Or.inl rfl, h1, h2, le_refl _, by simp⟩
  | cons x xs ih =>
    intro m0 L h1 h2 hall
    have hx := hall x (List.mem_cons_self _ _)
    have hxs : ∀ s ∈ xs, s.data.length = L ∧ ∀ c ∈ s.data, isDigitChar c = true :=
      fun s hs => hall s (List.mem_cons_of_mem _ hs)
    by_cases hlt : lexLtB m0.data x.data = true
    · have hord : digitsVal m0.data < digitsVal x.data :=
        (lexLtB_iff_digitsVal m0.data x.data (h1.trans hx.1.symm) h2 hx.2).mp hlt
      obtain ⟨m, hfold, hmem, hLen, hDig, hge, hub⟩ := ih x L hx.1 hx.2 hxs
      refine ⟨m, ?_, ?_, hLen, hDig, ?_, ?_⟩
      · simpa [List.foldl_cons, hlt] using hfold
      · rcases hmem with rfl | hm
        · exact Or.inr (List.mem_cons_self _ _)
        · exact Or.inr (List.mem_cons_of_mem _ hm)
      · exact le_of_lt (lt_of_lt_of_le hord hge)
      · intro s hs
        rcases List.mem_cons.mp hs with rfl | hm
        · exact hge
        · exact hub s hm
    · have hlt' : lexLtB m0.data x.data = false := by simpa using hlt
      have hord : digitsVal x.data ≤ digitsVal m0.data := by
        have hiff := lexLtB_iff_digitsVal m0.data x.data (h1.trans hx.1.symm) h2 hx.2
        have hnot : ¬ digitsVal m0.data < digitsVal x.data := by
          rw [← hiff]
          simp [hlt']
        omega
      obtain ⟨m, hfold, hmem, hLen, hDig, hge, hub⟩ := ih m0 L h1 h2 hxs
      refine ⟨m, ?_, ?_, hLen, hDig, hge, ?_⟩
      · simpa [List.foldl_cons, hlt'] using hfold
      · rcases hmem with rfl | hm
        · exact Or.inl rfl
        · exact Or.inr (List.mem_cons_of_mem _ hm)
      · intro s hs
        rcases List.mem_cons.mp hs with rfl | hm
        · exact le_trans hord hge
        · exact hub s hm

/-- Spec of the order-by-empno-descending limit-1 query over equal-length
digit-string empnos: it returns a member whose value is the numeric
maximum. -/
theorem maxLexString_spec (empnos : List String) (L : Nat) (hne : empnos ≠ [])
    (hall : ∀ s ∈ empnos, s.data.length = L ∧ ∀ c ∈ s.data, isDigitChar c = true) :
    ∃ m, maxLexString empnos = some m ∧ m ∈ empnos ∧ m.data.length = L ∧
      (∀ c ∈ m.data, isDigitChar c = true) ∧
      ∀ s ∈ empnos, digitsVal s.data ≤ digitsVal m.data := by
  cases empnos with
  | nil => exact absurd rfl hne
  | cons x xs =>
    have hx := hall x (List.mem_cons_self _ _)
    obtain ⟨m, hfold, hmem, hLen, hDig, hge, hub⟩ :=
      foldlMax_spec xs x L hx.1 hx.2 (fun s hs => hall s (List.mem_cons_of_mem _ hs))
    refine ⟨m, ?_, ?_, hLen, hDig, ?_⟩
    · simpa [maxLexString, List.foldl_cons] using hfold
    · rcases hmem with rfl | hm
      · exact List.mem_cons_self _ _
      · exact List.mem_cons_of_mem _ hm
    · intro s hs
      rcases List.mem_cons.mp hs with rfl | hm
      · exact hge
      · exact hub s hm

/-- parseInt on a non-empty pure digit string reads the whole string and
returns its numeric value. -/
theorem parseIntJS_digits (s : String) (hne : s.data ≠ [])
    (hd : ∀ c ∈ s.data, isDigitChar c = true) :
    parseIntJS s = some ((digitsVal s.data : Int)) := by
  obtain ⟨c, rest, hsd⟩ : ∃ c rest, s.data = c :: rest := by
    cases hx : s.data with
    | nil => exact absurd hx hne
    | cons a l => exact ⟨a, l, rfl⟩
  have hc : isDigitChar c = true := hd c (by rw [hsd]; exact List.mem_cons_self _ _)
  have hw : c.isWhitespace = false := not_whitespace_of_digit c hc
  have hdrop : s.data.dropWhile (fun c => c.isWhitespace) = c :: rest := by
    rw [hsd, List.dropWhile_cons, hw]
    simp
  have hld : leadingDigits (c :: rest) = c :: rest := by
    unfold leadingDigits
    exact List.takeWhile_eq_self_iff.mpr (fun a ha => hd a (hsd ▸ ha))
  have h1 : ¬ (c = '-') := digit_ne_dash c hc
  have h2 : ¬ (c = '+') := digit_ne_plus c hc
  unfold parseIntJS
  rw [hdrop, hsd]
  simp [h1, h2, hld]

/-- C9 counterexample: the derivation takes the greatest empno under the text
ordering of the column, not the numeric maximum. Over the persisted numeric
empnos 1001 and 999 the numeric maximum is 1001, so the claim demands
1001 + 1 = "1002"; the code orders "999" above "1001" lexicographically and
derives 999 + 1 = "1000". -/
theorem nextEmpNo_lex_counterexample :
    fetchNextEmployeeNumber ["1001", "999"] = "1000" ∧
    toString (digitsVal "1001".data + 1) = "1002" ∧
    digitsVal "999".data ≤ digitsVal "1001".data ∧
    fetchNextEmployeeNumber ["1001", "999"] ≠ "1002" := by
  decide

/-- C9 (amended): over a non-empty set of persisted empnos that are all
digit strings of one common length, the derived number equals the numeric
maximum plus one (lexicographic and numeric order agree on equal-length digit
strings); and with no persisted employee the default 1001 is used. -/
theorem nextEmpNo_numeric_max (empnos : List String) (e : String) (he : e ∈ empnos)
    (hdig : ∀ s ∈ empnos, s.data ≠ [] ∧ ∀ c ∈ s.data, isDigitChar c = true)
    (hlen : ∀ s ∈ empnos, s.data.length = e.data.length)
    (hmax : ∀ s ∈ empnos, digitsVal s.data ≤ digitsVal e.data) :
    fetchNextEmployeeNumber empnos = toString (digitsVal e.data + 1) ∧
    fetchNextEmployeeNumber [] = "1001" := by
  constructor
  · have hne : empnos ≠ [] := List.ne_nil_of_mem he
    obtain ⟨m, hfold, hmem, hLen, hDig, hub⟩ :=
      maxLexString_spec empnos e.data.length hne
        (fun s hs => ⟨hlen s hs, (hdig s hs).2⟩)
    have hmne : m.data ≠ [] := (hdig m hmem).1
    have hval : digitsVal m.data = digitsVal e.data :=
      le_antisymm (hmax m hmem) (hub e he)
    unfold fetchNextEmployeeNumber
    rw [hfold]
    show (match parseIntJS m with
      | none => "1001"
      | some currentNumber => toString (currentNumber + 1)) = toString (digitsVal e.data + 1)
    rw [parseIntJS_digits m hmne hDig]
    show toString ((digitsVal m.data : Int) + 1) = toString (digitsVal e.data + 1)
    rw [hval]
    have hcast : ((digitsVal e.data : Int) + 1) = ((digitsVal e.data + 1 : Nat) : Int) := by
      push_cast
      ring
    rw [hcast]
    rfl
  · rfl

/-- C9 witness: three persisted four-digit empnos with numeric maximum
1003. -/
theorem nextEmpNo_numeric_max_witness :
    "1003" ∈ ["1001", "1003", "1002"] ∧
    (∀ s ∈ ["1001", "1003", "1002"], s.data ≠ [] ∧ ∀ c ∈ s.data, isDigitChar c = true) ∧
    (∀ s ∈ ["1001", "1003", "1002"], s.data.length = "1003".data.length) ∧
    (∀ s ∈ ["1001", "1003", "1002"], digitsVal s.data ≤ digitsVal "1003".data) ∧
    (fetchNextEmployeeNumber ["1001", "1003", "1002"] =
        toString (digitsVal "1003".data + 1) ∧
      fetchNextEmployeeNumber [] = "1001") :=
  ⟨by decide, by decide, by decide, by decide,
    nextEmpNo_numeric_max ["1001", "1003", "1002"] "1003" (by decide) (by decide)
      (by decide) (by decide)⟩
